import Mathlib

/-
A verification development for the svl repository (a Latin-library text
statistics tool written in Rust).  The Rust sources are shallowly embedded
below: strings are `List Char`, hash maps and hash sets are association
lists respectively duplicate-free lists (their iteration order is
irrelevant to every statement proved here), fallible code returns
`Except`, and `panic`-like control flow (`expect`, `unwrap`) is a
distinguished outcome constructor.  Character classification embeds the
ASCII fragment of Rust's `char` methods (`is_alphabetic`,
`is_ascii_punctuation`, `is_whitespace`, `to_lowercase`); every concrete
input used in a theorem below is ASCII, where the two agree.
-/

set_option autoImplicit false

namespace SVL

/-! ### Character classes (ASCII fragment of Rust `char` methods) -/

/-- ASCII uppercase letter test, the ASCII fragment of Rust's
`char::is_uppercase`. -/
def isAsciiUpper (c : Char) : Bool := decide ('A' ≤ c ∧ c ≤ 'Z')

/-- ASCII lowercase letter test. -/
def isAsciiLower (c : Char) : Bool := decide ('a' ≤ c ∧ c ≤ 'z')

/-- ASCII fragment of Rust's `char::is_alphabetic`. -/
def isAsciiAlpha (c : Char) : Bool := isAsciiUpper c || isAsciiLower c

/-- ASCII digit test, fragment of Rust's `char::is_numeric`. -/
def isAsciiDigit (c : Char) : Bool := decide ('0' ≤ c ∧ c ≤ '9')

/-- ASCII fragment of Rust's `char::is_alphanumeric`. -/
def isAsciiAlnum (c : Char) : Bool := isAsciiAlpha c || isAsciiDigit c

/-- ASCII fragment of Rust's `char::is_whitespace` (Unicode `White_Space`
restricted to ASCII code points). -/
def isWs (c : Char) : Bool :=
  decide (c = ' ' ∨ c = '\t' ∨ c = '\n' ∨ c = '\x0b' ∨ c = '\x0c' ∨ c = '\r')

/-- Rust's `char::is_ascii_punctuation`: the four ASCII punctuation
ranges. -/
def isAsciiPunct (c : Char) : Bool :=
  decide ((33 ≤ c.toNat ∧ c.toNat ≤ 47) ∨ (58 ≤ c.toNat ∧ c.toNat ≤ 64) ∨
    (91 ≤ c.toNat ∧ c.toNat ≤ 96) ∨ (123 ≤ c.toNat ∧ c.toNat ≤ 126))

/-- ASCII fragment of Rust's `char`/`str::to_lowercase`. -/
def toLowerChar (c : Char) : Char :=
  if 65 ≤ c.toNat ∧ c.toNat ≤ 90 then Char.ofNat (c.toNat + 32) else c

/-- Rust's `str::trim` (both-ends whitespace strip) on a char list. -/
def trimChars (l : List Char) : List Char :=
  ((l.dropWhile isWs).reverse.dropWhile isWs).reverse

/-- Shorthand turning a string literal into the char-list representation
used throughout the embedding. -/
def cs (s : String) : List Char := s.toList

/-! ### Tokenizer: `src/core/src/text.rs` -/

/-- The `Word` newtype of text.rs (line 118): a tokenized word. -/
structure Word where
  chars : List Char
  deriving DecidableEq, Repr

/-- The `Word::is_empty` method (text.rs line 121). -/
def Word.isEmpty (w : Word) : Bool := w.chars.isEmpty

/-- The `Text::word_splitter` predicate (text.rs lines 80-82): a char is a
token separator when it is whitespace, ASCII punctuation, or not
alphanumeric. -/
def wordSplitter (c : Char) : Bool := isWs c || isAsciiPunct c || !(isAsciiAlnum c)

/-- Rust's `str::split(predicate)`: the (possibly empty) fragments between
separator characters, with leading/trailing/adjacent separators producing
empty fragments. -/
def splitP (p : Char → Bool) : List Char → List (List Char)
  | [] => [[]]
  | c :: rest =>
    if p c then
      [] :: splitP p rest
    else
      match splitP p rest with
      | [] => [[c]]
      | g :: gs => (c :: g) :: gs

/-- Rust's `str::replace("&nbsp;", " ")` used by `trim_latin_word`
(text.rs line 89): left-to-right, non-overlapping replacement of the
six-character entity by one space. -/
def replaceNbsp : List Char → List Char
  | '&' :: 'n' :: 'b' :: 's' :: 'p' :: ';' :: rest => ' ' :: replaceNbsp rest
  | c :: rest => c :: replaceNbsp rest
  | [] => []

/-- The call `scraper::Html::parse_fragment(..).root_element().text()` in
`trim_latin_word` (text.rs lines 101-104).  Its input at that point has
already been filtered down to alphabetic characters only, so it contains
no markup (`<`, `>`) and no entity (`&`, `;`); on such input the HTML5
fragment parser returns the text verbatim, hence the embedding is the
identity. -/
def htmlFragmentText (l : List Char) : List Char := l

/-- The `Text::trim_latin_word` function (text.rs lines 84-108). -/
def trimLatinWord (word : List Char) : Option Word :=
  if word.head? = some '<' ∨ word.head? = some '>' then none
  else
    let trimmed := replaceNbsp (trimChars word)
    if trimmed.isEmpty then none
    else
      let filtered := trimmed.filter isAsciiAlpha
      some ⟨(htmlFragmentText filtered).map toLowerChar⟩

/-- The `Text` struct of text.rs (lines 52-58); `TextId` is a plain
natural number. -/
structure Text where
  id : Option Nat
  url : List Char
  text : List Char
  author_id : Option Nat
  deriving DecidableEq, Repr

/-- The `Text::new` constructor (text.rs lines 61-68). -/
def Text.new (url text : List Char) : Text := ⟨none, url, text, none⟩

/-- The `Text::words` tokenizer (text.rs lines 74-78): split on
`word_splitter`, then `filter_map` through `trim_latin_word`. -/
def Text.words (t : Text) : List Word :=
  (splitP wordSplitter t.text).filterMap trimLatinWord

/-! ### Aggregator: `src/core/src/stats.rs` -/

/-- The `WordStats` struct (stats.rs lines 138-143).  `text_ids` embeds the
`HashSet<TextId>` as a duplicate-free list, `count` embeds the
`HashMap<TextId, usize>` as an association list. -/
structure WordStats where
  text_ids : List Nat
  word : Word
  count : List (Nat × Nat)
  deriving DecidableEq, Repr

/-- The `WordStats::new` constructor (stats.rs lines 146-152). -/
def WordStats.new (text_id : Nat) (word : Word) : WordStats :=
  ⟨[text_id], word, []⟩

/-- Hash-set insertion for the `text_ids` field. -/
def insertTid (tid : Nat) (l : List Nat) : List Nat :=
  if tid ∈ l then l else l ++ [tid]

/-- Map update embedding `self.count.entry(text_id).or_insert(0); *count += 1`
of `WordStats::incr_count` (stats.rs lines 167-170). -/
def bumpCount (tid : Nat) : List (Nat × Nat) → List (Nat × Nat)
  | [] => [(tid, 1)]
  | (k, v) :: rest =>
    if k = tid then (k, v + 1) :: rest else (k, v) :: bumpCount tid rest

/-- The `WordStats::count_text` method (stats.rs lines 154-157): record the
text id and increment its per-text count. -/
def WordStats.countText (ws : WordStats) (text_id : Nat) : WordStats :=
  { ws with text_ids := insertTid text_id ws.text_ids,
            count := bumpCount text_id ws.count }

/-- The `WordStats::count` accessor (stats.rs lines 159-161). -/
def WordStats.countOf (ws : WordStats) (text_id : Nat) : Nat :=
  (ws.count.lookup text_id).getD 0

/-- The `WordStats::global_count` method (stats.rs lines 163-165): sum of
all per-text counts. -/
def WordStats.globalCount (ws : WordStats) : Nat :=
  (ws.count.map Prod.snd).sum

/-- The `Stats` aggregator struct (stats.rs lines 13-18); `words` embeds
`HashMap<Word, WordStats>` as an association list. -/
structure Stats where
  texts : List Text
  word_count : Nat
  words : List (Word × WordStats)
  deriving DecidableEq, Repr

/-- The `Stats::new` constructor (stats.rs lines 21-27). -/
def Stats.new : Stats := ⟨[], 0, []⟩

/-- The `Stats::unique_word_count` method (stats.rs lines 29-31). -/
def Stats.uniqueWordCount (s : Stats) : Nat := s.words.length

/-- The map update of `Stats::add_word` (stats.rs lines 55-59):
`entry(word).or_insert_with(WordStats::new(text_id, word))` followed by
`count_text(text_id)` on the entry. -/
def updateWords (text_id : Nat) (word : Word) :
    List (Word × WordStats) → List (Word × WordStats)
  | [] => [(word, (WordStats.new text_id word).countText text_id)]
  | (k, ws) :: rest =>
    if k = word then (k, ws.countText text_id) :: rest
    else (k, ws) :: updateWords text_id word rest

/-- The `Stats::add_word` method (stats.rs lines 50-60): empty words are
dropped; otherwise the run-level `word_count` is incremented and the word
table entry updated. -/
def Stats.addWord (s : Stats) (text_id : Nat) (word : Word) : Stats :=
  if word.isEmpty then s
  else { s with word_count := s.word_count + 1,
                words := updateWords text_id word s.words }

/-- The `Stats::add_text` method (stats.rs lines 33-48): assign
`texts.len() + 1` as the id, push the text, then fold every tokenized
word through `add_word`. -/
def Stats.addText (s : Stats) (t : Text) : Stats :=
  let id := s.texts.length + 1
  let ws := t.words
  let s2 := { s with texts := s.texts ++ [{ t with id := some id }] }
  ws.foldl (fun acc w => acc.addWord id w) s2

/-- Sum of `global_count` over all entries of the word table, the quantity
related to `word_count` by the aggregator invariant. -/
def sumGlobal (entries : List (Word × WordStats)) : Nat :=
  (entries.map (fun e => e.2.globalCount)).sum

/-! ### Query language: `src/core/src/queries.rs` -/

/-- The `QueryCommand` enum (queries.rs lines 44-64). -/
inductive QueryCommand where
  | help | top | topEnds | texts | ends | endsTexts
  | contains | containsTexts | countTexts | countAuthors | countWords
  | word | text | author | quit | exit | clear
  | unknown (cmd : List Char)
  deriving DecidableEq, Repr

/-- The `From<&str> for QueryCommand` conversion (queries.rs lines 66-89). -/
def QueryCommand.ofChars (l : List Char) : QueryCommand :=
  if l = cs "help" then .help
  else if l = cs "top" then .top
  else if l = cs "top-ends" then .topEnds
  else if l = cs "texts" then .texts
  else if l = cs "ends" then .ends
  else if l = cs "ends-texts" then .endsTexts
  else if l = cs "contains" then .contains
  else if l = cs "contains-texts" then .containsTexts
  else if l = cs "count-texts" then .countTexts
  else if l = cs "count-authors" then .countAuthors
  else if l = cs "count-words" then .countWords
  else if l = cs "word" then .word
  else if l = cs "text" then .text
  else if l = cs "author" then .author
  else if l = cs "quit" then .quit
  else if l = cs "exit" then .exit
  else if l = cs "clear" then .clear
  else .unknown l

/-- The `QueryError` enum (queries.rs lines 9-28). -/
inductive QueryError where
  | dbError (msg : List Char)
  | unknownQuery (cmd : List Char)
  | missingArgs (cmd : QueryCommand) (expected provided : Nat)
  | emptyQuery
  | missingCommand
  | unmatchedQuotes
  deriving DecidableEq, Repr

/-- The `Query` struct (queries.rs lines 38-42); `Args` is its argument
vector. -/
structure Query where
  cmd : QueryCommand
  args : List (List Char)
  deriving DecidableEq, Repr

/-- The mutable loop state of `Query::parse` (queries.rs lines 130-134):
`cmd`, `args`, `current_arg` and `in_quotes`. -/
structure PState where
  cmd : List Char
  args : List (List Char)
  cur : List Char
  inQuotes : Bool
  deriving DecidableEq, Repr

/-- The token-flush step of `Query::parse`, performed both on unquoted
whitespace (queries.rs lines 138-147) and after the loop (lines 166-172):
a non-empty `current_arg` becomes the command if none is set yet,
otherwise an argument. -/
def flushTok (s : PState) : PState :=
  if s.cur.isEmpty then s
  else if s.cmd.isEmpty then { s with cmd := s.cur, cur := [] }
  else { s with args := s.args ++ [s.cur], cur := [] }

/-- One iteration of the `for c in chars` loop of `Query::parse`
(queries.rs lines 136-160).  The quote branch can fail with
`MissingCommand` (line 152). -/
def pstep (s : PState) (c : Char) : Except QueryError PState :=
  if (c = ' ' ∨ c = '\t') ∧ ¬s.inQuotes then .ok (flushTok s)
  else if c = '"' then
    let s2 : PState := { s with inQuotes := !s.inQuotes }
    if ¬s2.inQuotes ∧ ¬s2.cur.isEmpty then
      if s2.cmd.isEmpty then .error .missingCommand
      else .ok { s2 with args := s2.args ++ [s2.cur], cur := [] }
    else .ok s2
  else .ok { s with cur := s.cur ++ [c] }

/-- The whole `for c in chars` loop of `Query::parse`. -/
def prun (s : PState) : List Char → Except QueryError PState
  | [] => .ok s
  | c :: rest =>
    match pstep s c with
    | .error e => .error e
    | .ok s2 => prun s2 rest

/-- The `Query::parse` function (queries.rs lines 124-179) on a char
list: trim, reject the empty query, run the loop, reject an open quote,
flush the last token, reject a missing command. -/
def Query.parseChars (l : List Char) : Except QueryError Query :=
  let q := trimChars l
  if q.isEmpty then .error .emptyQuery
  else
    match prun ⟨[], [], [], false⟩ q with
    | .error e => .error e
    | .ok s =>
      if s.inQuotes then .error .unmatchedQuotes
      else
        let s2 := flushTok s
        if s2.cmd.isEmpty then .error .missingCommand
        else .ok ⟨QueryCommand.ofChars s2.cmd, s2.args⟩

/-- `Query::parse` on a Lean string literal. -/
def Query.parse (s : String) : Except QueryError Query :=
  Query.parseChars s.toList

/-- Rust's `str::parse::<usize>`: an optional leading `+` sign, then at
least one decimal digit, with values at or above `2^64` rejected
(64-bit `usize` overflow). -/
def parseUsize (l : List Char) : Option Nat :=
  let digits := match l with
    | '+' :: rest => rest
    | _ => l
  if digits.isEmpty then none
  else if digits.all isAsciiDigit then
    let n := digits.foldl (fun acc c => acc * 10 + (c.toNat - 48)) 0
    if n < 2 ^ 64 then some n else none
  else none

/-- The `Args::optional_at::<usize>` method (queries.rs lines 315-320):
parse the idx-th argument if present, `None` on absence or parse
failure. -/
def optionalAtUsize (args : List (List Char)) (idx : Nat) : Option Nat :=
  match args.get? idx with
  | none => none
  | some a => parseUsize a

/-- The parameterized read-only DB query issued by an arm of
`Query::eval`, named after the queries.rs helper function it calls.  The
DB execution itself is the external storage engine. -/
inductive DBCall where
  | topWordsStartingWith (pre : List Char) (limit : Option Nat)
  | topWordsEndingWith (sfx : List Char) (limit : Option Nat)
  | textsInfo (limit : Option Nat)
  | textsWithWordStartingWith (pre : List Char) (limit : Option Nat)
  | wordsEndingWith (sfx : List Char) (limit : Option Nat)
  | textsWithWordEndingWith (sfx : List Char) (limit : Option Nat)
  | wordsContaining (sub : List Char) (limit : Option Nat)
  | textsContaining (sub : List Char) (limit : Option Nat)
  | runCountTexts
  | runCountAuthors
  | runCountWords
  | wordInfo (w : List Char) (limit : Option Nat)
  | textInfo (tid : Nat) (limit : Option Nat)
  | authorInfo (name : List Char) (limit : Option Nat)
  deriving DecidableEq, Repr

/-- The observable control-flow outcome of one `Query::eval` call:
a typed error, a panic (Rust `expect` on a failed parse), the
side-effecting arms (`help`, `clear`, `quit`/`exit`), or a DB query. -/
inductive EvalOutcome where
  | err (e : QueryError)
  | panicked
  | helpShown
  | cleared
  | exited
  | db (call : DBCall)
  deriving DecidableEq, Repr

/-- The `Query::eval` dispatch (queries.rs lines 181-294), embedded up to
the point where each arm hands a parameterized query to the storage
engine.  The `text` arm's `args.get(0)...parse::<usize>().expect(..)`
(lines 272-277) is a panic when the argument is not a valid `usize`. -/
def Query.evalOutcome (q : Query) : EvalOutcome :=
  match q.cmd with
  | .help => .helpShown
  | .top =>
    if q.args.isEmpty then .err (.missingArgs .top 1 q.args.length)
    else
      match q.args.get? 0 with
      | none => .panicked
      | some a => .db (.topWordsStartingWith a (optionalAtUsize q.args 1))
  | .topEnds =>
    if q.args.isEmpty then .err (.missingArgs .topEnds 1 q.args.length)
    else
      match q.args.get? 0 with
      | none => .panicked
      | some a => .db (.topWordsEndingWith a (optionalAtUsize q.args 1))
  | .texts =>
    if q.args.length < 2 then
      .db (.textsInfo (match q.args.get? 0 with
        | none => none
        | some a => parseUsize a))
    else
      match q.args.get? 0 with
      | none => .panicked
      | some a => .db (.textsWithWordStartingWith a (optionalAtUsize q.args 1))
  | .ends =>
    if q.args.isEmpty then .err (.missingArgs .ends 1 q.args.length)
    else
      match q.args.get? 0 with
      | none => .panicked
      | some a => .db (.wordsEndingWith a (optionalAtUsize q.args 1))
  | .endsTexts =>
    if q.args.isEmpty then .err (.missingArgs .endsTexts 1 q.args.length)
    else
      match q.args.get? 0 with
      | none => .panicked
      | some a => .db (.textsWithWordEndingWith a (optionalAtUsize q.args 1))
  | .contains =>
    if q.args.isEmpty then .err (.missingArgs .contains 1 q.args.length)
    else
      match q.args.get? 0 with
      | none => .panicked
      | some a => .db (.wordsContaining a (optionalAtUsize q.args 1))
  | .containsTexts =>
    if q.args.isEmpty then
      .err (.missingArgs (QueryCommand.ofChars (cs "contains-texts")) 1 q.args.length)
    else
      match q.args.get? 0 with
      | none => .panicked
      | some a => .db (.textsContaining a (optionalAtUsize q.args 1))
  | .countTexts => .db .runCountTexts
  | .countAuthors => .db .runCountAuthors
  | .countWords => .db .runCountWords
  | .word =>
    if q.args.isEmpty then .err (.missingArgs .word 1 q.args.length)
    else
      match q.args.get? 0 with
      | none => .panicked
      | some a => .db (.wordInfo a (optionalAtUsize q.args 1))
  | .text =>
    if q.args.isEmpty then .err (.missingArgs .text 1 q.args.length)
    else
      match q.args.get? 0 with
      | none => .panicked
      | some a =>
        match parseUsize a with
        | none => .panicked
        | some n => .db (.textInfo n (optionalAtUsize q.args 1))
  | .author =>
    if q.args.isEmpty then .err (.missingArgs .author 1 q.args.length)
    else
      match q.args.get? 0 with
      | none => .panicked
      | some a => .db (.authorInfo a (optionalAtUsize q.args 1))
  | .quit => .exited
  | .exit => .exited
  | .clear => .cleared
  | .unknown c => .err (.unknownQuery c)

/-- Parsing followed by evaluation, the REPL round trip for one input
line: a parse error is surfaced directly, otherwise the parsed query is
evaluated. -/
def parseEval (s : String) : EvalOutcome :=
  match Query.parse s with
  | .error e => .err e
  | .ok q => q.evalOutcome

/-! ### Bounded-concurrency fetching: `src/core/src/client.rs`

`HttpStatsClient` holds a `tokio::sync::Semaphore` with
`MAX_CONCURRENT_REQUESTS` permits (client.rs lines 15-20); every fetch
(`fetch_text`, `get_authors`, `get_texts`) first awaits one permit, holds
it for the duration of the network request, and releases it afterwards.
The embedding is a transition system over the phases of a fixed set of
fetch tasks: a task waits for a permit, is in flight while it holds one,
and releases it when its response has been read. -/

/-- The `MAX_CONCURRENT_REQUESTS` constant (client.rs line 15). -/
def maxConcurrentRequests : Nat := 25

/-- Phase of one fetch task: blocked on `semaphore.acquire()`, holding a
permit with its request in flight, or finished (permit dropped). -/
inductive FetchPhase where
  | waiting | inflight | done
  deriving DecidableEq, Repr

/-- State of the client: free permits of the semaphore plus the phase of
each fetch task. -/
structure SemState where
  permits : Nat
  tasks : List FetchPhase
  deriving DecidableEq, Repr

/-- Number of in-flight network requests. -/
def countInflight (l : List FetchPhase) : Nat :=
  l.countP (fun p => p = .inflight)

/-- Initial state for a batch of `n` fetches against a semaphore with
`cap` permits: all permits free, every task waiting to acquire. -/
def initSem (cap n : Nat) : SemState :=
  ⟨cap, List.replicate n .waiting⟩

/-- One scheduler step of the fetch system.  `acquire` embeds
`self.semaphore.acquire().await` succeeding (client.rs lines 26, 33, 60):
it needs a free permit and moves the task in flight.  `release` embeds
the permit guard being dropped after the response is read: the permit
returns to the semaphore. -/
inductive FetchStep : SemState → SemState → Prop where
  | acquire (s : SemState) (i : Nat) (h : s.tasks.get? i = some .waiting)
      (hp : 0 < s.permits) :
      FetchStep s ⟨s.permits - 1, s.tasks.set i .inflight⟩
  | release (s : SemState) (i : Nat) (h : s.tasks.get? i = some .inflight) :
      FetchStep s ⟨s.permits + 1, s.tasks.set i .done⟩

/-- States reachable from `start` by scheduler steps. -/
def SemReach (start s : SemState) : Prop :=
  Relation.ReflTransGen FetchStep start s

/-! ### Transactional persistence: `src/core/src/db.rs` and
`Stats::store_in_db` (stats.rs lines 68-114)

`store_in_db` opens one write `multi_tx`, issues one `:put Text` script
per text and one `:put Word` script per (word, text_id) pair, and calls
`commit` once at the end; every `?` failure returns before the commit.
The storage engine (cozo) is external (spec treats it as an opaque
transactional store): a `MultiTransaction`'s writes are buffered and
become visible only at `commit`; a transaction dropped without commit is
discarded.  Writes may fail; the embedding takes a failure oracle giving
the outcome of the n-th script of the run, and a separate outcome for
the commit. -/

/-- One keyed write issued by `store_in_db`: a `:put Text` row or a
`:put Word` row. -/
inductive DBWrite where
  | putText (text_id author_id : Nat) (url text : List Char)
  | putWord (word : Word) (text_id count : Nat)
  deriving DecidableEq, Repr

/-- Pending state of one `MultiTransaction`: buffered writes plus the
index of the next script (used by the failure oracle). -/
structure TxSt where
  pending : List DBWrite
  idx : Nat
  deriving DecidableEq, Repr

/-- `tx.run_script` for one write: fails if the oracle says the current
script fails, otherwise buffers the write. -/
def txRun (wfail : Nat → Option (List Char)) (t : TxSt) (w : DBWrite) :
    Except (List Char) TxSt :=
  match wfail t.idx with
  | some e => .error e
  | none => .ok ⟨t.pending ++ [w], t.idx + 1⟩

/-- Result of a loop inside `store_in_db`: normal completion, an early
`?` return with a storage error, or a Rust panic (a failed `expect`). -/
inductive TxRes (α : Type) where
  | ok (a : α)
  | err (msg : List Char)
  | panicked
  deriving Repr

/-- The first loop of `store_in_db` (stats.rs lines 72-92): for every
text, `expect` its id and author id (panicking when absent) and issue
the `:put Text` script. -/
def storeTextsLoop (wfail : Nat → Option (List Char)) :
    List Text → TxSt → TxRes TxSt
  | [], t => .ok t
  | x :: rest, t =>
    match x.id with
    | none => .panicked
    | some tid =>
      match x.author_id with
      | none => .panicked
      | some aid =>
        match txRun wfail t (.putText tid aid x.url x.text) with
        | .error e => .err e
        | .ok t2 => storeTextsLoop wfail rest t2

/-- The inner loop of the second loop of `store_in_db` (stats.rs lines
95-110): one `:put Word` script per text id of the word's stats. -/
def storeTidsLoop (wfail : Nat → Option (List Char)) (w : Word)
    (ws : WordStats) : List Nat → TxSt → TxRes TxSt
  | [], t => .ok t
  | tid :: rest, t =>
    match txRun wfail t (.putWord w tid (ws.countOf tid)) with
    | .error e => .err e
    | .ok t2 => storeTidsLoop wfail w ws rest t2

/-- The second loop of `store_in_db` (stats.rs lines 94-111): iterate the
word table. -/
def storeWordsLoop (wfail : Nat → Option (List Char)) :
    List (Word × WordStats) → TxSt → TxRes TxSt
  | [], t => .ok t
  | (w, ws) :: rest, t =>
    match storeTidsLoop wfail w ws ws.text_ids t with
    | .err e => .err e
    | .panicked => .panicked
    | .ok t2 => storeWordsLoop wfail rest t2

/-- Outcome of one `store_in_db` call together with the index state the
storage engine is left in (`db` lists the committed, reader-visible
rows). -/
inductive StoreOutcome where
  | ok (db : List DBWrite)
  | err (msg : List Char) (db : List DBWrite)
  | panicked (db : List DBWrite)
  deriving Repr

/-- The `Stats::store_in_db` method (stats.rs lines 68-114): open one
write transaction, run the text loop then the word loop, and commit at
the end; every early return leaves the transaction uncommitted, so the
visible index state stays `db`. -/
def Stats.storeInDb (s : Stats) (wfail : Nat → Option (List Char))
    (cfail : Option (List Char)) (db : List DBWrite) : StoreOutcome :=
  match storeTextsLoop wfail s.texts ⟨[], 0⟩ with
  | .panicked => .panicked db
  | .err e => .err e db
  | .ok t =>
    match storeWordsLoop wfail s.words t with
    | .panicked => .panicked db
    | .err e => .err e db
    | .ok t2 =>
      match cfail with
      | some e => .err e db
      | none => .ok (db ++ t2.pending)

/-- The `:put Text` write a text produces on the successful path. -/
def textWrite (t : Text) : DBWrite :=
  .putText (t.id.getD 0) (t.author_id.getD 0) t.url t.text

/-- The `:put Word` writes one word-table entry produces. -/
def wordWrites (w : Word) (ws : WordStats) : List DBWrite :=
  ws.text_ids.map (fun tid => .putWord w tid (ws.countOf tid))

/-- All writes of one `store_in_db` run, in issue order. -/
def allWrites (s : Stats) : List DBWrite :=
  s.texts.map textWrite ++ (s.words.map (fun e => wordWrites e.1 e.2)).flatten

/-- A `Stats` value whose texts all carry an id and an author id (true of
every aggregate built by the ingestion driver), so that `store_in_db`
does not panic. -/
def Stats.wf (s : Stats) : Prop :=
  ∀ t ∈ s.texts, t.id.isSome ∧ t.author_id.isSome

/-! ### Ingestion driver: `src/cli/src/main.rs` -/

/-- The author/work listing entry `AuthorInfo` (client.rs lines 87-92),
with its works as (name, url) pairs. -/
structure AuthorInfo where
  name : List Char
  url : List Char
  texts : List (List Char × List Char)
  deriving DecidableEq, Repr

/-- Rust's `iter().enumerate()` with an explicit starting counter, as
used by the author loop of `fetch_and_store_stats` (main.rs line 109). -/
def enumFrom {α : Type} (i : Nat) : List α → List (Nat × α)
  | [] => []
  | a :: rest => (i, a) :: enumFrom (i + 1) rest

/-- The `:put Author` rows written by `fetch_and_store_stats` (main.rs
lines 109-125): `author_id` is the `enumerate()` index, counted from 0. -/
def authorRows (authors : List AuthorInfo) : List (Nat × List Char × List Char) :=
  (enumFrom 0 authors).map (fun p => (p.1, p.2.name, p.2.url))

/-- The final fetch-and-fold loop of `fetch_and_store_stats` (main.rs
lines 165-169): each awaited fetch result is either a fetched `Text` or
a fetch error; `tf.await?` propagates the first error out of the whole
function, otherwise the text (with its author id attached) is folded
into the aggregate via `add_text`. -/
def foldFetched (s : Stats) :
    List (Nat × Except (List Char) Text) → Except (List Char) Stats
  | [] => .ok s
  | (_, .error e) :: _ => .error e
  | (aid, .ok t) :: rest =>
    foldFetched (s.addText { t with author_id := some aid }) rest

/-- Density invariant for document ids: the text at position `k` carries
id `k + 1`. -/
def TextIdsDense (s : Stats) : Prop :=
  ∀ k tk, s.texts.get? k = some tk → tk.id = some (k + 1)

/-- One aggregator call: an `add_text` or a raw `add_word`. -/
inductive AggOp where
  | text (t : Text)
  | word (tid : Nat) (w : Word)

/-- Apply one aggregator call. -/
def applyOp (s : Stats) : AggOp → Stats
  | .text t => s.addText t
  | .word tid w => s.addWord tid w

/-- Apply a sequence of aggregator calls in order. -/
def applyOps (ops : List AggOp) (s : Stats) : Stats :=
  ops.foldl applyOp s

/-! ## Helper lemmas -/

theorem charLe_toNat {a b : Char} : a ≤ b ↔ a.toNat ≤ b.toNat := by
  rw [Char.le_def, UInt32.le_def, BitVec.le_def]
  exact Iff.rfl

theorem toNat_ofNat_small {n : Nat} (h : n ≤ 122) : (Char.ofNat n).toNat = n := by
  have hv : n.isValidChar := Or.inl (by omega)
  rw [Char.ofNat, dif_pos hv]
  rfl

/-- Lowercasing an (ASCII) alphabetic character yields an ASCII lowercase
letter. -/
theorem lower_of_alpha {c : Char} (hc : isAsciiAlpha c = true) :
    isAsciiLower (toLowerChar c) = true := by
  have ha : ('a').toNat = 97 := rfl
  have hz : ('z').toNat = 122 := rfl
  have hA : ('A').toNat = 65 := rfl
  have hZ : ('Z').toNat = 90 := rfl
  have hc2 : (65 ≤ c.toNat ∧ c.toNat ≤ 90) ∨ (97 ≤ c.toNat ∧ c.toNat ≤ 122) := by
    simp only [isAsciiAlpha, isAsciiUpper, isAsciiLower, Bool.or_eq_true,
      decide_eq_true_eq] at hc
    rcases hc with h | h
    · refine Or.inl ⟨?_, ?_⟩
      · have := charLe_toNat.mp h.1
        omega
      · have := charLe_toNat.mp h.2
        omega
    · refine Or.inr ⟨?_, ?_⟩
      · have := charLe_toNat.mp h.1
        omega
      · have := charLe_toNat.mp h.2
        omega
  unfold toLowerChar isAsciiLower
  rcases hc2 with ⟨h1, h2⟩ | ⟨h1, h2⟩
  · rw [if_pos ⟨h1, h2⟩, decide_eq_true_eq]
    have ht : (Char.ofNat (c.toNat + 32)).toNat = c.toNat + 32 :=
      toNat_ofNat_small (by omega)
    exact ⟨charLe_toNat.mpr (by omega), charLe_toNat.mpr (by omega)⟩
  · rw [if_neg (by omega), decide_eq_true_eq]
    exact ⟨charLe_toNat.mpr (by omega), charLe_toNat.mpr (by omega)⟩

/-- Characterization of a successful `trim_latin_word`: the yielded word
is the lowercased, alphabetic-only filtering of the trimmed fragment. -/
theorem chars_of_trimLatinWord {frag : List Char} {w : Word}
    (h : trimLatinWord frag = some w) :
    w.chars = ((replaceNbsp (trimChars frag)).filter isAsciiAlpha).map toLowerChar := by
  simp only [trimLatinWord, htmlFragmentText] at h
  split_ifs at h with h1 h2
  all_goals cases h
  all_goals rfl

/-! ## Claims -/

/-- C9: the three parser scenarios of the spec hold on the embedded
`Query::parse`: `top "la" 5` parses to the `top` command with arguments
`la` and `5`; an unterminated quote yields the unmatched-quotes error;
the empty input yields the empty-query error. -/
theorem claim_C9_parse_scenarios :
    Query.parse "top \"la\" 5" = .ok ⟨.top, [cs "la", cs "5"]⟩ ∧
    Query.parse "\"unterminated" = .error .unmatchedQuotes ∧
    Query.parse "" = .error .emptyQuery := by
  refine ⟨rfl, rfl, rfl⟩

/-- C2, counterexample: tokenizing the input `123` yields the empty
`Word`.  The fragment `123` survives the emptiness test of
`trim_latin_word` (it is non-empty before the alphabetic filter), and
the filter then removes every character, so `Some(Word(""))` is yielded
by `Text::words`, refuting the non-emptiness half of the claim. -/
theorem claim_C2_empty_word_counterexample :
    (Text.new (cs "url") (cs "123")).words = [⟨[]⟩] ∧
    Word.isEmpty ⟨[]⟩ = true := by
  exact ⟨rfl, rfl⟩

/-- C2, amended: every character of every `Word` yielded by `Text::words`
is a lowercase (ASCII) alphabetic character — but the word itself may be
empty (a fragment containing alphanumeric but no alphabetic characters,
such as `123`, yields the empty word). -/
theorem claim_C2_words_lowercase_alphabetic (t : Text) (w : Word) (c : Char)
    (hw : w ∈ t.words) (hc : c ∈ w.chars) : isAsciiLower c = true := by
  unfold Text.words at hw
  rw [List.mem_filterMap] at hw
  obtain ⟨frag, _, hfrag⟩ := hw
  rw [chars_of_trimLatinWord hfrag, List.mem_map] at hc
  obtain ⟨c0, hc0, rfl⟩ := hc
  rw [List.mem_filter] at hc0
  exact lower_of_alpha hc0.2

/-- Witness for the amended C2 theorem at a concrete tokenizer input. -/
theorem claim_C2_words_lowercase_alphabetic_witness :
    isAsciiLower 'a' = true := by
  exact claim_C2_words_lowercase_alphabetic
    (Text.new (cs "url") (cs "ab")) ⟨cs "ab"⟩ 'a' (by decide) (by decide)

/-- C8: `Stats::add_word` with a word that is empty after normalization
returns before touching any field, so the aggregator is unchanged: no
entry is inserted into the word table and `word_count` stays put. -/
theorem claim_C8_empty_word_ignored (s : Stats) (text_id : Nat) (w : Word)
    (h : w.isEmpty = true) : s.addWord text_id w = s := by
  unfold Stats.addWord
  rw [if_pos h]

/-- Witness for C8 at a concrete aggregator state and empty word. -/
theorem claim_C8_empty_word_ignored_witness :
    Stats.addWord Stats.new 1 ⟨[]⟩ = Stats.new := by
  exact claim_C8_empty_word_ignored Stats.new 1 ⟨[]⟩ (by decide)

/-- C3, counterexample: `text abc` parses successfully (the `text`
command with argument `abc`), and `Query::eval` then panics at
`parse::<usize>().expect("Expected a valid usize for text_id")`
(queries.rs line 276) instead of returning a typed error, refuting the
never-panics half of the claim for malformed arguments. -/
theorem claim_C3_eval_panics_counterexample :
    parseEval "text abc" = .panicked := by
  rfl

/-- C3, amended: empty input, unterminated quotes, a missing command, an
unknown command and missing required arguments are all surfaced as typed
`QueryError` values, but a malformed (non-`usize`) `text_id` argument to
the `text` command causes a panic rather than a typed error. -/
theorem claim_C3_typed_errors_except_text_panic (a : List Char)
    (rest : List (List Char)) (h : parseUsize a = none) :
    Query.parse "" = .error .emptyQuery ∧
    Query.parse "\"unterminated" = .error .unmatchedQuotes ∧
    Query.parse "\"\"" = .error .missingCommand ∧
    (∀ c args, Query.evalOutcome ⟨.unknown c, args⟩ = .err (.unknownQuery c)) ∧
    Query.evalOutcome ⟨.top, []⟩ = .err (.missingArgs .top 1 0) ∧
    Query.evalOutcome ⟨.text, a :: rest⟩ = .panicked := by
  refine ⟨rfl, rfl, rfl, fun c args => rfl, rfl, ?_⟩
  simp [Query.evalOutcome, h]

/-- Witness for the amended C3 theorem at the concrete argument `abc`. -/
theorem claim_C3_typed_errors_except_text_panic_witness :
    Query.evalOutcome ⟨.text, [cs "abc"]⟩ = .panicked := by
  exact (claim_C3_typed_errors_except_text_panic (cs "abc") [] (by decide)).2.2.2.2.2

/-- The fetch-and-fold loop propagates the first fetch error past any
prefix of successful fetches. -/
theorem foldFetched_append_error (pre : List (Nat × Except (List Char) Text)) :
    ∀ (s : Stats) (aid : Nat) (e : List Char)
      (rest : List (Nat × Except (List Char) Text)),
      (∀ p ∈ pre, ∃ t, p.2 = .ok t) →
      foldFetched s (pre ++ (aid, .error e) :: rest) = .error e := by
  induction pre with
  | nil => intro s aid e rest _; rfl
  | cons p ps ih =>
    intro s aid e rest h
    obtain ⟨t, ht⟩ := h p (List.mem_cons_self p ps)
    obtain ⟨a, r⟩ := p
    simp only at ht
    subst ht
    simp only [List.cons_append, foldFetched]
    exact ih _ _ _ _ (fun q hq => h q (List.mem_cons_of_mem _ hq))

/-- The fetch-and-fold loop completes when every fetch succeeded. -/
theorem foldFetched_all_ok (rs : List (Nat × Except (List Char) Text)) :
    ∀ s : Stats, (∀ p ∈ rs, ∃ t, p.2 = .ok t) →
      ∃ s2, foldFetched s rs = .ok s2 := by
  induction rs with
  | nil => intro s _; exact ⟨s, rfl⟩
  | cons p ps ih =>
    intro s h
    obtain ⟨t, ht⟩ := h p (List.mem_cons_self p ps)
    obtain ⟨a, r⟩ := p
    simp only at ht
    subst ht
    simp only [foldFetched]
    exact ih _ (fun q hq => h q (List.mem_cons_of_mem _ hq))

/-- C1, counterexample: with two documents where the first fetch fails
and the second succeeds, `fetch_and_store_stats`'s fold loop
(`tf.await?`, main.rs line 166) returns the fetch error: the run fails
outright, the successfully fetched second document is never folded into
the aggregator, and no per-item failure report is produced. -/
theorem claim_C1_fetch_failure_aborts_counterexample :
    foldFetched Stats.new
      [(0, .error (cs "404 not found")),
       (1, .ok (Text.new (cs "u2") (cs "uerba latina")))] =
      .error (cs "404 not found") := by
  rfl

/-- C1, amended: an ingestion run aborts at the first fetch failure —
after any prefix of successful fetches, a failing fetch makes the whole
loop return that fetch's error (so later successes are dropped and no
per-item report happens); only a run in which every fetch succeeds
completes and folds all documents. -/
theorem claim_C1_first_fetch_error_aborts_run (s : Stats)
    (pre rest : List (Nat × Except (List Char) Text)) (aid : Nat)
    (e : List Char) (hpre : ∀ p ∈ pre, ∃ t, p.2 = .ok t) :
    foldFetched s (pre ++ (aid, .error e) :: rest) = .error e ∧
    ∀ rs : List (Nat × Except (List Char) Text),
      (∀ p ∈ rs, ∃ t, p.2 = .ok t) → ∃ s2, foldFetched s rs = .ok s2 := by
  exact ⟨foldFetched_append_error pre s aid e rest hpre,
    fun rs h => foldFetched_all_ok rs s h⟩

/-- Witness for the amended C1 theorem: one successful fetch followed by
one failing fetch aborts the run with the failure's error. -/
theorem claim_C1_first_fetch_error_aborts_run_witness :
    foldFetched Stats.new
      [(0, .ok (Text.new (cs "u1") (cs "arma uirumque"))),
       (1, .error (cs "boom"))] = .error (cs "boom") := by
  refine (claim_C1_first_fetch_error_aborts_run Stats.new
    [(0, .ok (Text.new (cs "u1") (cs "arma uirumque")))] [] 1 (cs "boom") ?_).1
  intro p hp
  rw [List.mem_singleton] at hp
  subst hp
  exact ⟨Text.new (cs "u1") (cs "arma uirumque"), rfl⟩

/-- `add_word` never touches the text list. -/
theorem addWord_texts (s : Stats) (tid : Nat) (w : Word) :
    (s.addWord tid w).texts = s.texts := by
  unfold Stats.addWord
  split_ifs <;> rfl

/-- Folding any word list through `add_word` never touches the text
list. -/
theorem foldl_addWord_texts (ws : List Word) :
    ∀ (s : Stats) (tid : Nat),
      (ws.foldl (fun acc w => acc.addWord tid w) s).texts = s.texts := by
  induction ws with
  | nil => intro s tid; rfl
  | cons w ws ih =>
    intro s tid
    rw [List.foldl_cons, ih, addWord_texts]

/-- `add_text` appends exactly one text, carrying id `texts.len() + 1`. -/
theorem addText_texts (s : Stats) (t : Text) :
    (s.addText t).texts =
      s.texts ++ [{ t with id := some (s.texts.length + 1) }] := by
  unfold Stats.addText
  rw [foldl_addWord_texts]

theorem dense_addText {s : Stats} (h : TextIdsDense s) (t : Text) :
    TextIdsDense (s.addText t) := by
  intro k tk hk
  rw [addText_texts] at hk
  rcases Nat.lt_trichotomy k s.texts.length with hlt | heq | hgt
  · rw [List.get?_append hlt] at hk
    exact h k tk hk
  · subst heq
    rw [List.get?_concat_length] at hk
    cases hk
    rfl
  · have hlen : (s.texts ++ [{ t with id := some (s.texts.length + 1) }]).length ≤ k := by
      simp only [List.length_append, List.length_singleton]
      omega
    rw [List.get?_eq_none.mpr hlen] at hk
    cases hk

/-- Every aggregate produced by the fetch-and-fold loop from a fresh
`Stats` has dense text ids. -/
theorem foldFetched_dense (rs : List (Nat × Except (List Char) Text)) :
    ∀ s0 s : Stats, TextIdsDense s0 → foldFetched s0 rs = .ok s →
      TextIdsDense s := by
  induction rs with
  | nil =>
    intro s0 s h0 h
    cases h
    exact h0
  | cons p ps ih =>
    intro s0 s h0 h
    obtain ⟨a, r⟩ := p
    cases r with
    | error e => cases h
    | ok t =>
      simp only [foldFetched] at h
      exact ih _ _ (dense_addText h0 _) h

/-- The enumerate counter of the author loop: the entry at position `j`
of `enumFrom i l` carries index `i + j`. -/
theorem enumFrom_fst (l : List AuthorInfo) :
    ∀ (i j : Nat) (r : Nat × AuthorInfo),
      (enumFrom i l).get? j = some r → r.1 = i + j := by
  induction l with
  | nil => intro i j r h; cases h
  | cons a l ih =>
    intro i j r h
    cases j with
    | zero =>
      simp only [enumFrom, List.get?] at h
      cases h
      rfl
    | succ j =>
      simp only [enumFrom, List.get?] at h
      have := ih (i + 1) j r h
      omega

/-- C7, counterexample: the first persisted author receives
`author_id = 0` (the `enumerate()` index of main.rs line 109), while the
first document folded into the aggregator receives `text_id = 1`
(`texts.len() + 1`, stats.rs line 34): the two id sequences do not start
from one consistently applied base. -/
theorem claim_C7_id_base_mismatch_counterexample :
    authorRows [⟨cs "Vergilius", cs "u", []⟩] = [(0, cs "Vergilius", cs "u")] ∧
    (Stats.new.addText (Text.new (cs "u") (cs "arma uirumque"))).texts.map
      (fun t => t.id) = [some 1] ∧
    (0 : Nat) ≠ 1 := by
  exact ⟨rfl, rfl, by decide⟩

/-- C7, amended: both id sequences are dense with no gaps and no reuse,
but from differing bases — the k-th document folded into the aggregator
of an ingestion run receives `text_id = k + 1` (base 1), while the j-th
author row is persisted with `author_id = j` (base 0). -/
theorem claim_C7_dense_ids_differing_bases (authors : List AuthorInfo)
    (rs : List (Nat × Except (List Char) Text)) (s : Stats)
    (h : foldFetched Stats.new rs = .ok s) :
    (∀ k tk, s.texts.get? k = some tk → tk.id = some (k + 1)) ∧
    (∀ j r, (authorRows authors).get? j = some r → r.1 = j) := by
  constructor
  · exact foldFetched_dense rs Stats.new s (fun k tk hk => by cases hk) h
  · intro j r hr
    unfold authorRows at hr
    rw [List.get?_map] at hr
    cases hp : (enumFrom 0 authors).get? j with
    | none => rw [hp] at hr; cases hr
    | some p =>
      rw [hp] at hr
      cases hr
      have := enumFrom_fst authors 0 j p hp
      simpa using this

/-- Witness for the amended C7 theorem on a one-author, one-document
run. -/
theorem claim_C7_dense_ids_differing_bases_witness :
    ((0 : Nat), cs "Vergilius", cs "u").1 = 0 := by
  exact (claim_C7_dense_ids_differing_bases [⟨cs "Vergilius", cs "u", []⟩]
    [(0, .ok (Text.new (cs "u") (cs "arma uirumque")))]
    (Stats.new.addText
      { Text.new (cs "u") (cs "arma uirumque") with author_id := some 0 })
    (by rfl)).2 0 (0, cs "Vergilius", cs "u") (by rfl)

/-- `incr_count` raises the sum of the per-text counts by exactly one. -/
theorem sum_bumpCount (tid : Nat) :
    ∀ m : List (Nat × Nat),
      ((bumpCount tid m).map Prod.snd).sum = (m.map Prod.snd).sum + 1 := by
  intro m
  induction m with
  | nil => rfl
  | cons p rest ih =>
    obtain ⟨k, v⟩ := p
    by_cases hk : k = tid
    · simp only [bumpCount, if_pos hk, List.map_cons, List.sum_cons]
      omega
    · simp only [bumpCount, if_neg hk, List.map_cons, List.sum_cons]
      omega

/-- `count_text` raises `global_count` by exactly one. -/
theorem globalCount_countText (ws : WordStats) (tid : Nat) :
    (ws.countText tid).globalCount = ws.globalCount + 1 := by
  unfold WordStats.countText WordStats.globalCount
  exact sum_bumpCount tid ws.count

/-- The word-table update of a non-empty `add_word` raises the sum of
global counts by exactly one, whether the word is new or existing. -/
theorem sumGlobal_updateWords (tid : Nat) (w : Word) :
    ∀ entries, sumGlobal (updateWords tid w entries) = sumGlobal entries + 1 := by
  intro entries
  induction entries with
  | nil =>
    simp only [updateWords, sumGlobal, List.map_cons, List.map_nil,
      List.sum_cons, List.sum_nil, globalCount_countText]
    rfl
  | cons e rest ih =>
    obtain ⟨k, ws⟩ := e
    by_cases hk : k = w
    · simp only [updateWords, if_pos hk, sumGlobal, List.map_cons,
        List.sum_cons, globalCount_countText]
      omega
    · simp only [updateWords, if_neg hk, sumGlobal, List.map_cons,
        List.sum_cons] at *
      omega

/-- `add_word` preserves the sum-equals-counter invariant. -/
theorem addWord_invariant {s : Stats} (h : sumGlobal s.words = s.word_count)
    (tid : Nat) (w : Word) :
    sumGlobal (s.addWord tid w).words = (s.addWord tid w).word_count := by
  unfold Stats.addWord
  split_ifs with he
  · exact h
  · simp only
    rw [sumGlobal_updateWords, h]

/-- Folding a word list through `add_word` preserves the invariant. -/
theorem foldl_addWord_invariant (ws : List Word) :
    ∀ (s : Stats) (tid : Nat), sumGlobal s.words = s.word_count →
      sumGlobal ((ws.foldl (fun acc w => acc.addWord tid w) s)).words =
        (ws.foldl (fun acc w => acc.addWord tid w) s).word_count := by
  induction ws with
  | nil => intro s tid h; exact h
  | cons w ws ih =>
    intro s tid h
    rw [List.foldl_cons]
    exact ih _ tid (addWord_invariant h tid w)

/-- `add_text` preserves the sum-equals-counter invariant. -/
theorem addText_invariant {s : Stats} (h : sumGlobal s.words = s.word_count)
    (t : Text) :
    sumGlobal (s.addText t).words = (s.addText t).word_count := by
  unfold Stats.addText
  exact foldl_addWord_invariant t.words _ _ h

/-- C5: after any sequence of `add_text` / `add_word` calls on a fresh
aggregator, the sum of `global_count()` over all word-table entries
equals the run-level `word_count` counter, and `unique_word_count` is
the size of the word table. -/
theorem claim_C5_aggregator_invariant (ops : List AggOp) :
    sumGlobal (applyOps ops Stats.new).words =
      (applyOps ops Stats.new).word_count ∧
    (applyOps ops Stats.new).uniqueWordCount =
      (applyOps ops Stats.new).words.length := by
  constructor
  · have main : ∀ (l : List AggOp) (s : Stats),
        sumGlobal s.words = s.word_count →
        sumGlobal (applyOps l s).words = (applyOps l s).word_count := by
      intro l
      induction l with
      | nil => intro s h; exact h
      | cons op rest ih =>
        intro s h
        cases op with
        | text t => exact ih _ (addText_invariant h t)
        | word tid w => exact ih _ (addWord_invariant h tid w)
    exact main ops Stats.new rfl
  · rfl

/-- Setting a waiting task in flight raises the in-flight count by
one. -/
theorem countInflight_set_inflight :
    ∀ (l : List FetchPhase) (i : Nat), l.get? i = some .waiting →
      countInflight (l.set i .inflight) = countInflight l + 1 := by
  intro l
  induction l with
  | nil => intro i h; cases h
  | cons a l ih =>
    intro i h
    cases i with
    | zero =>
      simp only [List.get?] at h
      cases h
      simp [countInflight, List.countP_cons]
    | succ i =>
      simp only [List.get?] at h
      simp only [List.set, countInflight, List.countP_cons]
      have := ih i h
      unfold countInflight at this
      omega

/-- Finishing an in-flight task lowers the in-flight count by one. -/
theorem countInflight_set_done :
    ∀ (l : List FetchPhase) (i : Nat), l.get? i = some .inflight →
      countInflight (l.set i .done) + 1 = countInflight l := by
  intro l
  induction l with
  | nil => intro i h; cases h
  | cons a l ih =>
    intro i h
    cases i with
    | zero =>
      simp only [List.get?] at h
      cases h
      simp [countInflight, List.countP_cons]
    | succ i =>
      simp only [List.get?] at h
      simp only [List.set, countInflight, List.countP_cons]
      have := ih i h
      unfold countInflight at this
      omega

theorem countInflight_replicate_waiting :
    ∀ n, countInflight (List.replicate n .waiting) = 0 := by
  intro n
  induction n with
  | zero => rfl
  | succ n ih =>
    simp [List.replicate, countInflight, List.countP_cons] at *

/-- Semaphore bookkeeping invariant: free permits plus in-flight
requests always add up to the configured capacity. -/
theorem semInvariant {cap n : Nat} {s : SemState}
    (h : SemReach (initSem cap n) s) :
    s.permits + countInflight s.tasks = cap := by
  unfold SemReach at h
  induction h with
  | refl =>
    simp [initSem, countInflight_replicate_waiting]
  | tail hr step ih =>
    cases step with
    | acquire i h hp =>
      dsimp only
      rw [countInflight_set_inflight _ _ h]
      omega
    | release i h =>
      dsimp only
      have := countInflight_set_done _ _ h
      omega

/-- C6: in every state reachable by any schedule of concurrent fetches,
the number of in-flight network requests never exceeds the semaphore
capacity `MAX_CONCURRENT_REQUESTS = 25` acquired by every fetch before
issuing its request. -/
theorem claim_C6_concurrency_cap (n : Nat) (s : SemState)
    (h : SemReach (initSem maxConcurrentRequests n) s) :
    countInflight s.tasks ≤ maxConcurrentRequests := by
  have := semInvariant h
  omega

/-- Witness for C6: the initial state of a five-fetch batch is reachable
and satisfies the bound. -/
theorem claim_C6_concurrency_cap_witness :
    countInflight (initSem maxConcurrentRequests 5).tasks ≤
      maxConcurrentRequests := by
  exact claim_C6_concurrency_cap 5 _ Relation.ReflTransGen.refl

/-- The parse loop distributes over appended input. -/
theorem prun_append (l1 : List Char) :
    ∀ (s : PState) (l2 : List Char),
      prun s (l1 ++ l2) =
        match prun s l1 with
        | .error e => .error e
        | .ok s2 => prun s2 l2 := by
  induction l1 with
  | nil => intro s l2; rfl
  | cons c l1 ih =>
    intro s l2
    simp only [List.cons_append, prun]
    cases h : pstep s c with
    | error e => rfl
    | ok s2 => exact ih s2 l2

/-- The parse loop over plain characters (no unquoted separators, no
quotes) outside quotes just accumulates them onto `current_arg`. -/
theorem prun_plain (w : List Char) :
    ∀ s : PState, s.inQuotes = false →
      (∀ c ∈ w, isWs c = false ∧ c ≠ '"') →
      prun s w = .ok { s with cur := s.cur ++ w } := by
  induction w with
  | nil =>
    intro s hq hw
    rw [List.append_nil]
    rfl
  | cons c w ih =>
    intro s hq hw
    obtain ⟨hcw, hcq⟩ := hw c (List.mem_cons_self c w)
    have hc1 : ¬((c = ' ' ∨ c = '\t') ∧ ¬s.inQuotes = true) := by
      intro h
      cases h.1 with
      | inl h2 => subst h2; exact absurd hcw (by decide)
      | inr h2 => subst h2; exact absurd hcw (by decide)
    have hstep : pstep s c = .ok { s with cur := s.cur ++ [c] } := by
      unfold pstep
      rw [if_neg hc1, if_neg hcq]
    simp only [prun]
    rw [hstep]
    show prun { s with cur := s.cur ++ [c] } w = _
    rw [ih { s with cur := s.cur ++ [c] } hq
      (fun d hd => hw d (List.mem_cons_of_mem _ hd))]
    rw [List.append_assoc]
    rfl

/-- Appending a quoted empty string after a complete plain command word
parses to that command with no arguments: the closing quote pushes
nothing because `current_arg` is empty. -/
theorem parse_cmd_quoted_empty (w : List Char) (hw : w ≠ [])
    (hpl : ∀ c ∈ w, isWs c = false ∧ c ≠ '"') :
    Query.parseChars (w ++ cs " \"\"") = .ok ⟨QueryCommand.ofChars w, []⟩ := by
  cases w with
  | nil => exact absurd rfl hw
  | cons a w' =>
    obtain ⟨haw, haq⟩ := hpl a (List.mem_cons_self a w')
    have h1 : ((a :: w') ++ cs " \"\"").dropWhile isWs = (a :: w') ++ cs " \"\"" := by
      rw [List.cons_append, List.dropWhile_cons, if_neg (by simp [haw])]
    have h2 : (((a :: w') ++ cs " \"\"").reverse).dropWhile isWs =
        ((a :: w') ++ cs " \"\"").reverse := by
      rw [List.reverse_append]
      rw [show (cs " \"\"").reverse = '"' :: '"' :: [' '] from rfl]
      rw [List.cons_append, List.dropWhile_cons, if_neg (by decide)]
    have htrim : trimChars ((a :: w') ++ cs " \"\"") = (a :: w') ++ cs " \"\"" := by
      unfold trimChars
      rw [h1, h2, List.reverse_reverse]
    have hrun1 : prun ⟨[], [], [], false⟩ (a :: w') = .ok ⟨[], [], a :: w', false⟩ := by
      have := prun_plain (a :: w') ⟨[], [], [], false⟩ rfl hpl
      simpa using this
    unfold Query.parseChars
    rw [htrim, if_neg (by simp)]
    rw [prun_append (a :: w') ⟨[], [], [], false⟩ (cs " \"\""), hrun1]
    show (match prun ⟨[], [], a :: w', false⟩ [' ', '"', '"'] with
      | .error e => (.error e : Except QueryError Query)
      | .ok s =>
        if s.inQuotes then .error .unmatchedQuotes
        else
          if (flushTok s).cmd.isEmpty then .error .missingCommand
          else .ok ⟨QueryCommand.ofChars (flushTok s).cmd, (flushTok s).args⟩) = _
    rw [show prun ⟨[], [], a :: w', false⟩ [' ', '"', '"'] =
      .ok ⟨a :: w', [], [], false⟩ from rfl]
    rfl

/-- The end-of-token flush never pushes an empty argument. -/
theorem flushTok_no_empty {s : PState} (h : [] ∉ s.args) :
    [] ∉ (flushTok s).args := by
  unfold flushTok
  split_ifs with h1 h2
  · exact h
  · exact h
  · intro hmem
    simp only [List.mem_append, List.mem_singleton] at hmem
    rcases hmem with hm | hm
    · exact h hm
    · exact h1 (by rw [← hm]; rfl)

/-- One parse-loop step never pushes an empty argument. -/
theorem pstep_no_empty {s s2 : PState} (c : Char) (h : [] ∉ s.args)
    (hs : pstep s c = .ok s2) : [] ∉ s2.args := by
  simp only [pstep] at hs
  split_ifs at hs with h1 h2 h3 h4
  all_goals cases hs
  all_goals try dsimp only
  all_goals
    first
    | exact flushTok_no_empty h
    | exact h
    | (intro hmem;
       rw [List.mem_append, List.mem_singleton] at hmem;
       cases hmem with
       | inl hm => exact h hm
       | inr hm => exact h3.2 (by rw [← hm]; rfl))

/-- The whole parse loop never pushes an empty argument. -/
theorem prun_no_empty (l : List Char) :
    ∀ s s2 : PState, [] ∉ s.args → prun s l = .ok s2 → [] ∉ s2.args := by
  induction l with
  | nil =>
    intro s s2 h hr
    cases hr
    exact h
  | cons c l ih =>
    intro s s2 h hr
    simp only [prun] at hr
    cases hp : pstep s c with
    | error e => rw [hp] at hr; cases hr
    | ok s3 =>
      rw [hp] at hr
      exact ih s3 s2 (pstep_no_empty c h hp) hr

/-- A successful `Query::parse` never returns an empty-string
argument. -/
theorem parse_no_empty_arg {q : List Char} {out : Query}
    (h : Query.parseChars q = .ok out) : [] ∉ out.args := by
  simp only [Query.parseChars] at h
  by_cases h1 : (trimChars q).isEmpty = true
  · rw [if_pos h1] at h
    cases h
  · rw [if_neg h1] at h
    cases hr : prun ⟨[], [], [], false⟩ (trimChars q) with
    | error e => rw [hr] at h; cases h
    | ok s =>
      rw [hr] at h
      dsimp only at h
      by_cases h2 : s.inQuotes = true
      · rw [if_pos h2] at h
        cases h
      · rw [if_neg h2] at h
        by_cases h3 : (flushTok s).cmd.isEmpty = true
        · rw [if_pos h3] at h
          cases h
        · rw [if_neg h3] at h
          cases h
          exact flushTok_no_empty (prun_no_empty _ _ _ (by simp) hr)

/-- C10: a command word followed by a quoted empty string parses
successfully to that command with the empty argument silently dropped,
and more generally no successful parse ever returns an empty-string
argument. -/
theorem claim_C10_quoted_empty_arg_dropped (w : List Char) (hw : w ≠ [])
    (hpl : ∀ c ∈ w, isWs c = false ∧ c ≠ '"') :
    Query.parseChars (w ++ cs " \"\"") = .ok ⟨QueryCommand.ofChars w, []⟩ ∧
    ∀ (q : List Char) (out : Query),
      Query.parseChars q = .ok out → [] ∉ out.args := by
  exact ⟨parse_cmd_quoted_empty w hw hpl,
    fun q out h => parse_no_empty_arg h⟩

/-- Witness for C10 on the concrete input `top ""`. -/
theorem claim_C10_quoted_empty_arg_dropped_witness :
    Query.parseChars (cs "top" ++ cs " \"\"") = .ok ⟨.top, []⟩ := by
  exact (claim_C10_quoted_empty_arg_dropped (cs "top") (by decide) (by decide)).1

/-- A successful text loop buffered exactly one `:put Text` write per
text, advanced the script index accordingly, and saw no failure. -/
theorem storeTextsLoop_ok (wfail : Nat → Option (List Char)) (ts : List Text) :
    ∀ t t2 : TxSt, storeTextsLoop wfail ts t = .ok t2 →
      t2.pending = t.pending ++ ts.map textWrite ∧
      t2.idx = t.idx + ts.length ∧
      ∀ j, j < ts.length → wfail (t.idx + j) = none := by
  induction ts with
  | nil =>
    intro t t2 h
    cases h
    refine ⟨by simp, by simp, ?_⟩
    intro j hj
    simp at hj
  | cons x rest ih =>
    intro t t2 h
    simp only [storeTextsLoop] at h
    cases hid : x.id with
    | none => rw [hid] at h; cases h
    | some tid =>
      rw [hid] at h
      dsimp only at h
      cases haid : x.author_id with
      | none => rw [haid] at h; cases h
      | some aid =>
        rw [haid] at h
        dsimp only at h
        simp only [txRun] at h
        cases hw : wfail t.idx with
        | some e => rw [hw] at h; cases h
        | none =>
          rw [hw] at h
          dsimp only at h
          obtain ⟨hp, hi, hj⟩ := ih _ _ h
          refine ⟨?_, ?_, ?_⟩
          · rw [hp]
            dsimp only
            rw [List.append_assoc]
            simp [textWrite, hid, haid]
          · rw [hi]
            dsimp only
            simp only [List.length_cons]
            omega
          · intro j hjlt
            cases j with
            | zero => simpa using hw
            | succ j =>
              have := hj j (by simpa using Nat.lt_of_succ_lt_succ hjlt)
              dsimp only at this
              rw [show t.idx + (j + 1) = t.idx + 1 + j from by omega]
              exact this

/-- A successful per-word inner loop buffered one `:put Word` write per
text id, advanced the index, and saw no failure. -/
theorem storeTidsLoop_ok (wfail : Nat → Option (List Char)) (w : Word)
    (ws : WordStats) (tids : List Nat) :
    ∀ t t2 : TxSt, storeTidsLoop wfail w ws tids t = .ok t2 →
      t2.pending = t.pending ++
        tids.map (fun tid => DBWrite.putWord w tid (ws.countOf tid)) ∧
      t2.idx = t.idx + tids.length ∧
      ∀ j, j < tids.length → wfail (t.idx + j) = none := by
  induction tids with
  | nil =>
    intro t t2 h
    cases h
    refine ⟨by simp, by simp, ?_⟩
    intro j hj
    simp at hj
  | cons tid rest ih =>
    intro t t2 h
    simp only [storeTidsLoop, txRun] at h
    cases hw : wfail t.idx with
    | some e => rw [hw] at h; cases h
    | none =>
      rw [hw] at h
      dsimp only at h
      obtain ⟨hp, hi, hj⟩ := ih _ _ h
      refine ⟨?_, ?_, ?_⟩
      · rw [hp]
        dsimp only
        rw [List.append_assoc]
        rfl
      · rw [hi]
        dsimp only
        simp only [List.length_cons]
        omega
      · intro j hjlt
        cases j with
        | zero => simpa using hw
        | succ j =>
          have := hj j (by simpa using Nat.lt_of_succ_lt_succ hjlt)
          dsimp only at this
          rw [show t.idx + (j + 1) = t.idx + 1 + j from by omega]
          exact this

/-- A successful word loop buffered exactly the word-table writes, in
order, and saw no failure. -/
theorem storeWordsLoop_ok (wfail : Nat → Option (List Char))
    (entries : List (Word × WordStats)) :
    ∀ t t2 : TxSt, storeWordsLoop wfail entries t = .ok t2 →
      t2.pending = t.pending ++
        (entries.map (fun e => wordWrites e.1 e.2)).flatten ∧
      t2.idx = t.idx + (entries.map (fun e => wordWrites e.1 e.2)).flatten.length ∧
      ∀ j, j < (entries.map (fun e => wordWrites e.1 e.2)).flatten.length →
        wfail (t.idx + j) = none := by
  induction entries with
  | nil =>
    intro t t2 h
    cases h
    refine ⟨by simp, by simp, ?_⟩
    intro j hj
    simp at hj
  | cons e rest ih =>
    intro t t2 h
    obtain ⟨w, ws⟩ := e
    simp only [storeWordsLoop] at h
    cases hin : storeTidsLoop wfail w ws ws.text_ids t with
    | err e2 => rw [hin] at h; cases h
    | panicked => rw [hin] at h; cases h
    | ok t1 =>
      rw [hin] at h
      dsimp only at h
      obtain ⟨hp1, hi1, hj1⟩ := storeTidsLoop_ok wfail w ws ws.text_ids t t1 hin
      obtain ⟨hp2, hi2, hj2⟩ := ih _ _ h
      have hww : ws.text_ids.map (fun tid => DBWrite.putWord w tid (ws.countOf tid)) =
          wordWrites w ws := rfl
      have hlen : ws.text_ids.length = (wordWrites w ws).length := by
        simp [wordWrites]
      refine ⟨?_, ?_, ?_⟩
      · rw [hp2, hp1, hww]
        simp [List.append_assoc]
      · rw [hi2, hi1, List.map_cons, List.flatten_cons]
        simp only [List.length_append]
        omega
      · intro j hjlt
        simp only [List.map_cons, List.flatten_cons, List.length_append] at hjlt
        by_cases hcase : j < (wordWrites w ws).length
        · have := hj1 j (by omega)
          exact this
        · have := hj2 (j - (wordWrites w ws).length) (by omega)
          rw [hi1] at this
          rw [show t.idx + j =
            t.idx + ws.text_ids.length + (j - (wordWrites w ws).length) from by omega]
          exact this

/-- C4: `store_in_db` issues all Text and Word writes of a run inside a
single write transaction and commits only once, after every write
succeeded — a successful run makes exactly all the run's writes visible
at once; every failing (or panicking) run leaves the previously
persisted index state unchanged, because the transaction is never
committed. -/
theorem claim_C4_store_in_db_atomic (s : Stats)
    (wfail : Nat → Option (List Char)) (cfail : Option (List Char))
    (db : List DBWrite) :
    (∀ db2, s.storeInDb wfail cfail db = .ok db2 →
      db2 = db ++ allWrites s ∧ cfail = none ∧
      ∀ j, j < (allWrites s).length → wfail j = none) ∧
    (∀ e db2, s.storeInDb wfail cfail db = .err e db2 → db2 = db) ∧
    (∀ db2, s.storeInDb wfail cfail db = .panicked db2 → db2 = db) := by
  unfold Stats.storeInDb
  cases ht : storeTextsLoop wfail s.texts ⟨[], 0⟩ with
  | panicked =>
    dsimp only
    refine ⟨?_, ?_, ?_⟩
    · intro db2 h; cases h
    · intro e db2 h; cases h
    · intro db2 h; cases h; rfl
  | err e1 =>
    dsimp only
    refine ⟨?_, ?_, ?_⟩
    · intro db2 h; cases h
    · intro e db2 h; cases h; rfl
    · intro db2 h; cases h
  | ok t =>
    dsimp only
    cases hw : storeWordsLoop wfail s.words t with
    | panicked =>
      dsimp only
      refine ⟨?_, ?_, ?_⟩
      · intro db2 h; cases h
      · intro e db2 h; cases h
      · intro db2 h; cases h; rfl
    | err e1 =>
      dsimp only
      refine ⟨?_, ?_, ?_⟩
      · intro db2 h; cases h
      · intro e db2 h; cases h; rfl
      · intro db2 h; cases h
    | ok t2 =>
      dsimp only
      cases cfail with
      | some e1 =>
        dsimp only
        refine ⟨?_, ?_, ?_⟩
        · intro db2 h; cases h
        · intro e db2 h; cases h; rfl
        · intro db2 h; cases h
      | none =>
        dsimp only
        refine ⟨?_, ?_, ?_⟩
        · intro db2 h
          cases h
          obtain ⟨hp1, hi1, hj1⟩ := storeTextsLoop_ok wfail s.texts _ _ ht
          obtain ⟨hp2, hi2, hj2⟩ := storeWordsLoop_ok wfail s.words _ _ hw
          dsimp only at hp1 hi1 hj1
          have hall : t2.pending = allWrites s := by
            rw [hp2, hp1]
            simp [allWrites]
          have hlen : (allWrites s).length =
              s.texts.length + (s.words.map (fun e => wordWrites e.1 e.2)).flatten.length := by
            simp [allWrites]
          refine ⟨by rw [hall], rfl, ?_⟩
          intro j hjlt
          rw [hlen] at hjlt
          by_cases hcase : j < s.texts.length
          · have := hj1 j hcase
            simpa using this
          · have := hj2 (j - s.texts.length) (by omega)
            rw [hi1] at this
            rw [show j = 0 + s.texts.length + (j - s.texts.length) from by omega]
            exact this
        · intro e db2 h; cases h
        · intro db2 h; cases h

/-- Witness for C4: a concrete one-document aggregate persisted against
an all-succeeding storage oracle commits exactly its writes. -/
theorem claim_C4_store_in_db_atomic_witness :
    allWrites (Stats.new.addText
      { Text.new (cs "u") (cs "arma uirumque") with author_id := some 0 }) =
    ([] : List DBWrite) ++ allWrites (Stats.new.addText
      { Text.new (cs "u") (cs "arma uirumque") with author_id := some 0 }) := by
  exact ((claim_C4_store_in_db_atomic
    (Stats.new.addText
      { Text.new (cs "u") (cs "arma uirumque") with author_id := some 0 })
    (fun _ => none) none []).1
    (allWrites (Stats.new.addText
      { Text.new (cs "u") (cs "arma uirumque") with author_id := some 0 }))
    (by rfl)).1

end SVL
